import Mathlib

/-!
# Verification of the lumos editor's completion/suggestion core

Shallow embedding of the client-side completion, rewrite and suggestion
logic of the lumos rich-text editor, together with proofs checking the
natural-language specification against it.

Embedded source locations:
* `src/services/CompletionService.ts` (caches, joiner-space rule,
  suggestion-span mapping, fail-soft error handling);
* `src/components/editor/commands/shortcuts.ts` (`createRewriteShortcuts`,
  `acceptInlineCompletion`);
* `src/components/editor/plugins/inlineCompletion.ts` (`completionState`
  state field, the debounced completion plugin's resolution check);
* `src/components/editor/plugins/rewriteCompletion.ts`
  (`createRewriteCompletions` option assembly);
* `src/components/editor/state/customRewrite.ts` (`customRewriteState`).

Strings are modelled by Lean `String`; all operations are written over
`String.data` so that every definition is executable and decidable on
concrete inputs.
-/

/-! ## String-level helpers (JS semantics) -/

/-- JS `text.endsWith(' ')`: the last character is a literal space
(`CompletionService.ts`, `getInlineCompletion`). -/
def jsEndsWithSpace (s : String) : Bool :=
  s.data.getLast? == some ' '

/-- JS `result.startsWith(' ')`: the first character is a literal space
(`CompletionService.ts`, `getInlineCompletion`). -/
def jsStartsWithSpace (s : String) : Bool :=
  s.data.head? == some ' '

/-- The joiner-space rule of `CompletionService.getInlineCompletion`
(`const needsSpace = !text.endsWith(' ') && !result.startsWith(' ')`):
one space is prepended to the raw AI continuation exactly when the line
text does not end with a space and the continuation does not start with
one. -/
def joinCompletion (text result : String) : String :=
  let needsSpace := !jsEndsWithSpace text && !jsStartsWithSpace result
  if needsSpace then " " ++ result else result

/-- Worker for JS `hay.indexOf(needle)`: scan positions left to right and
return the first index where `needle` is a prefix of the remaining text. -/
def firstOccAux (needle : List Char) : List Char → Nat → Option Nat
  | [], i => if needle <+: ([] : List Char) then some i else none
  | c :: rest, i =>
    if needle <+: (c :: rest) then some i else firstOccAux needle rest (i + 1)

/-- JS `hay.indexOf(needle)` (as used in
`CompletionService.getTextSuggestions`), returning `none` for `-1`. -/
def strIndexOf (hay needle : String) : Option Nat :=
  firstOccAux needle.data hay.data 0

/-- Raw suggestion object parsed from the model's JSON response in
`CompletionService.getTextSuggestions` (fields `text`, `type`,
`replacement`, `description`). -/
structure RawSuggestion where
  text : String
  type : String
  replacement : String
  description : String
  deriving DecidableEq

/-- `TextSuggestion` record from `src/types/completion.ts`. -/
structure TextSuggestion where
  «from» : Nat
  «to» : Nat
  type : String
  replacement : String
  description : String
  original : String
  deriving DecidableEq

/-- Loop body of `CompletionService.getTextSuggestions`: locate the flagged
substring with `text.indexOf(suggestion.text)`; on `-1` drop the suggestion,
otherwise produce the span `(index, index + suggestion.text.length)`. -/
def convertSuggestion (text : String) (s : RawSuggestion) : Option TextSuggestion :=
  match strIndexOf text s.text with
  | some index => some ⟨index, index + s.text.length, s.type, s.replacement, s.description, s.text⟩
  | none => none

/-- The `for (const suggestion of rawSuggestions) { ... push ... }` loop of
`CompletionService.getTextSuggestions`, accumulating converted suggestions
in order. -/
def getTextSuggestionsPure (text : String) (raw : List RawSuggestion) : List TextSuggestion :=
  raw.foldl
    (fun acc s =>
      match convertSuggestion text s with
      | some t => acc ++ [t]
      | none => acc)
    []

/-! ## Request Gateway outcome models (`CompletionService`)

Every gateway operation wraps its OpenAI call and JSON parsing in a
`try`/`catch`.  `AIOutcome.failure` stands for a network/API error or a
`JSON.parse` throw (both land in the same `catch`); `AIOutcome.success`
carries the parsed payload, where an inner `none` models a present but
ill-shaped payload (`response.suggestions` not an array, or a `null`
message content). -/

/-- Outcome of one external AI round trip, as observed by the `try` block. -/
inductive AIOutcome (α : Type) where
  | failure
  | success (value : α)

/-- `CompletionService.getRewriteSuggestions`: returns the parsed
`suggestions` array when it is an array, `[]` otherwise, `[]` on any
thrown error. -/
def getRewriteSuggestionsM : AIOutcome (Option (List RawSuggestion)) → List RawSuggestion
  | .failure => []
  | .success none => []
  | .success (some l) => l

/-- `CompletionService.getRewrite`: returns the message content
(`|| ''` for a null content), `''` on any thrown error. -/
def getRewriteM : AIOutcome (Option String) → String
  | .failure => ""
  | .success none => ""
  | .success (some s) => s

/-- Uncached success path of `CompletionService.getInlineCompletion`
(lines 181-217): the raw continuation (`|| ''` for null content) is joined
to the line text by the joiner-space rule; `''` on any thrown error. -/
def getInlineCompletionM (text : String) : AIOutcome (Option String) → String
  | .failure => ""
  | .success r => joinCompletion text (r.getD "")

/-- Uncached success path of `CompletionService.getTextSuggestions`:
span conversion of the parsed raw suggestions; `[]` when the
`suggestions` field is not an array, `[]` on any thrown error. -/
def getTextSuggestionsM (text : String) : AIOutcome (Option (List RawSuggestion)) → List TextSuggestion
  | .failure => []
  | .success none => []
  | .success (some raw) => getTextSuggestionsPure text raw

/-! ## TTL cache (`CompletionService.cache` / `inlineCache` / `suggestionCache`)

All three caches follow the same check-then-set pattern, e.g. lines
226-230 and 276-281 of `CompletionService.ts`:
`if (cached && Date.now() - cached.timestamp < this.CACHE_TTL) return cached...`
followed by `cache.set(key, {result, timestamp: Date.now()})` after a
successful producer run.  The producer's result on a miss is passed in as
`fresh` (the model covers the successful-producer path; a thrown producer
is covered by the `AIOutcome` models above and caches nothing). -/

/-- `CACHE_TTL = 1000 * 60 * 5` milliseconds (`CompletionService.ts` line 23). -/
def CACHE_TTL : Nat := 1000 * 60 * 5

/-- One `Map` entry: the cached result with its creation timestamp. -/
structure CacheEntryM (α : Type) where
  value : α
  timestamp : Nat
  deriving DecidableEq

/-- JS `Map.set`: overwrite the entry stored under `key`. -/
def cacheSet {α : Type} (c : String → Option (CacheEntryM α)) (key : String)
    (e : CacheEntryM α) : String → Option (CacheEntryM α) :=
  fun k => if k = key then some e else c k

/-- Result of one cached gateway call: the value handed to the caller, the
cache afterwards, and whether the producer ran. -/
structure LookupResult (α : Type) where
  value : α
  cache : String → Option (CacheEntryM α)
  producerCalled : Bool

/-- One cached gateway call: return an unexpired entry without running the
producer, otherwise run the producer and store its result under the
current timestamp. -/
def cachedCall {α : Type} (c : String → Option (CacheEntryM α)) (key : String)
    (now : Nat) (fresh : α) : LookupResult α :=
  match c key with
  | some e =>
    if now - e.timestamp < CACHE_TTL then ⟨e.value, c, false⟩
    else ⟨fresh, cacheSet c key ⟨fresh, now⟩, true⟩
  | none => ⟨fresh, cacheSet c key ⟨fresh, now⟩, true⟩

/-! ## Keystroke handling (`createRewriteShortcuts`, `shortcuts.ts` lines 14-105)

The editor state pieces the handler reads: the document, the main
selection, whether the autocomplete status is `'active'`, the currently
presented completion options, and the `customRewriteState` buffer. -/

/-- One autocomplete option as assembled by `createRewriteCompletions`:
its `label` and its `apply` replacement text (the JS `apply` may be
absent/falsy, modelled as `""`). -/
structure CMOption where
  label : String
  apply : String
  deriving DecidableEq

/-- The slice of `view.state` read by `createRewriteShortcuts.handleKey`. -/
structure EditorSt where
  doc : String
  selFrom : Nat
  selTo : Nat
  statusActive : Bool
  completions : List CMOption
  buffer : String
  deriving DecidableEq

/-- JS `currentBuffer.split('|')` destructured as `[text, preview]`:
the text before the first `'|'`, and, when a `'|'` is present, the part
between the first and second `'|'`. -/
def bufferParts (s : String) : String × Option String :=
  match s.data.span (fun c => c ≠ '|') with
  | (t, []) => (String.mk t, none)
  | (t, _ :: rest) => (String.mk t, some (String.mk (rest.takeWhile (fun c => c ≠ '|'))))

/-- `c` counts for the regex class `\w`. -/
def isWordChar (c : Char) : Bool :=
  c.isAlphanum || c == '_'

/-- Worker for the regex `\((\w+)\)$` over the reversed label: a final
`')'`, then one or more word characters, then `'('`. -/
def labelKeyRev : List Char → Option String
  | ')' :: rest =>
    let w := rest.takeWhile isWordChar
    if w.isEmpty then none
    else
      match rest.drop w.length with
      | '(' :: _ => some (String.mk w.reverse)
      | _ => none
  | _ => none

/-- JS `opt.label.match(/\((\w+)\)$/)`, returning the captured group. -/
def labelKey (label : String) : Option String :=
  labelKeyRev label.data.reverse

/-- JS `s.toLowerCase()` on ASCII text: lower-case every character. -/
def strToLower (s : String) : String :=
  String.mk (s.data.map Char.toLower)

/-- The `completions.find(...)` predicate of `handleKey` (`shortcuts.ts`
lines 70-78): the custom option (label equal to the buffer's text part)
matches exactly when the key is uppercase; a regular option matches when
its parenthesised key letter equals the pressed key case-insensitively. -/
def matchesKey (bufText : String) (key : Char) (opt : CMOption) : Bool :=
  if opt.label == bufText then key == key.toUpper
  else
    match labelKey opt.label with
    | some w => strToLower w == String.mk [key.toLower]
    | none => false

/-- Everything `handleKey` does in one invocation: whether the key event
was consumed (`run` returned `true`), the document edit dispatched (as
`(from, to, insert)`), the `setCustomRewrite` effect dispatched, whether
`closeCompletion` ran, and the instruction of the debounced
`getRewrite` fetch scheduled on the custom-rewrite timer channel. -/
structure KeyResult where
  consumed : Bool
  edit : Option (Nat × Nat × String)
  newBuffer : Option String
  closed : Bool
  scheduledInstr : Option String
  deriving DecidableEq

/-- `handleKey` result when the key is consumed with no further action. -/
def swallowResult : KeyResult := ⟨true, none, none, false, none⟩

/-- `handleKey` result when the key is not consumed (default typing runs). -/
def passResult : KeyResult := ⟨false, none, none, false, none⟩

/-- `handleKey` result when an option is committed: the selected range is
replaced by the option's apply text, the buffer is cleared and the
completion list closed. -/
def commitResult (f t : Nat) (applyText : String) : KeyResult :=
  ⟨true, some (f, t, applyText), some "", true, none⟩

/-- `createRewriteShortcuts.handleKey` (`shortcuts.ts` lines 15-93).
Branch 1 (selection non-empty, lowercase key): append the key to the
buffer, dispatch it, and (re)schedule the debounced custom-rewrite fetch
with the new buffer as instruction.  Branch 2 (completion status
`'active'`): consume the key; commit the first matching option when it
has a non-empty apply text and the key is uppercase.  Otherwise the key
is not consumed. -/
def handleKey (key : Char) (st : EditorSt) : KeyResult :=
  if st.selFrom != st.selTo && key == key.toLower then
    let newBuffer := st.buffer.push key
    ⟨true, none, some newBuffer, false, some newBuffer⟩
  else if st.statusActive then
    if st.completions.isEmpty then swallowResult
    else
      let text := (bufferParts st.buffer).1
      match st.completions.find? (fun opt => matchesKey text key opt) with
      | some opt =>
        if opt.apply != "" && key == key.toUpper then
          commitResult st.selFrom st.selTo opt.apply
        else swallowResult
      | none => swallowResult
  else passResult

/-! ## The custom-rewrite debounce channel (`shortcuts.ts` lines 8, 30-54)

`customRewriteTimeout` holds at most one pending timer; every lowercase
press clears it and schedules a new fetch with the updated buffer, so the
fetch fires only after a ≥500ms quiet period. -/

/-- The custom-rewrite timer channel: the buffer field, the instruction of
the pending (not yet fired) debounced fetch, and the fetch instructions
actually issued so far. -/
structure RewriteChannel where
  buffer : String
  pending : Option String
  fetches : List String
  deriving DecidableEq

/-- One keypress routed through `handleKey`: the buffer takes any
dispatched `setCustomRewrite` value, and a scheduled fetch replaces the
pending timer (`window.clearTimeout` + `window.setTimeout`). -/
def pressKey (doc : String) (selFrom selTo : Nat) (status : Bool)
    (comps : List CMOption) (ch : RewriteChannel) (key : Char) : RewriteChannel :=
  let r := handleKey key ⟨doc, selFrom, selTo, status, comps, ch.buffer⟩
  ⟨r.newBuffer.getD ch.buffer,
   (match r.scheduledInstr with
    | some i => some i
    | none => ch.pending),
   ch.fetches⟩

/-- The pending timer fires after the debounce delay: the scheduled
`getRewrite` fetch is issued with its captured instruction. -/
def fireTimer (ch : RewriteChannel) : RewriteChannel :=
  match ch.pending with
  | some i => ⟨ch.buffer, none, ch.fetches ++ [i]⟩
  | none => ch

/-! ## Option assembly (`createRewriteCompletions`, `rewriteCompletion.ts`)

Lines 247-253 build the regular options with labels
`` `${suggestion.label} (${suggestion.key})` ``; lines 263-296 prepend the
custom-buffer option (label = buffer text part, apply = preview or text)
whenever the `customRewriteState` buffer is non-empty — both when cached
regular options exist and when they do not. -/

/-- A rewrite strategy suggested by `getRewriteSuggestions`
(`CompletionService.ts` interface `RewriteSuggestion`). -/
structure RewriteSuggestion where
  key : String
  label : String
  description : String
  deriving DecidableEq

/-- The option label `` `${suggestion.label} (${suggestion.key})` ``. -/
def mkLabel (s : RewriteSuggestion) : String :=
  s.label ++ " (" ++ s.key ++ ")"

/-- The regular option list built from fetched suggestions paired with
their fetched rewrites (`rewriteCompletion.ts` lines 247-253). -/
def regularOptions (pairs : List (RewriteSuggestion × String)) : List CMOption :=
  pairs.map (fun p => ⟨mkLabel p.1, p.2⟩)

/-- JS `preview || text`: the custom option's apply text. -/
def applyOf (t : String) (p : Option String) : String :=
  match p with
  | some pv => if pv = "" then t else pv
  | none => t

/-- The custom-buffer option (`rewriteCompletion.ts` lines 268-275 and
287-293): label is the buffer's text part, apply is the fetched preview
when present and non-empty, else the text part itself. -/
def customOption (buf : String) : CMOption :=
  ⟨(bufferParts buf).1, applyOf (bufferParts buf).1 (bufferParts buf).2⟩

/-- The options actually presented: the custom option first (when the
buffer is non-empty), then the cached regular options. -/
def presentOptions (buf : String) (cachedOptions : List CMOption) : List CMOption :=
  if buf ≠ "" then customOption buf :: cachedOptions else cachedOptions

/-! ## Inline-completion state field (`inlineCompletion.ts` lines 16-61)

`completionState` holds the ghost-text decoration set and the current
completion string.  Decorations are modelled as a list of
`(position, text)` widget points (the source only ever stores a singleton
set). -/

/-- A `(deleteFrom, deleteTo, insertText)` change of one transaction. -/
structure ChangeSpec where
  «from» : Nat
  «to» : Nat
  insert : String
  deriving DecidableEq

/-- The two effects `completionState` reacts to. -/
inductive Eff where
  | add (pos : Nat) (completion : String)
  | clear
  deriving DecidableEq

/-- The slice of a CodeMirror transaction `completionState.update` reads:
whether the document changed, whether it carries the
`Transaction.remote` annotation, its changes and its effects. -/
structure Tr where
  docChanged : Bool
  remote : Bool
  changes : List ChangeSpec
  effects : List Eff
  deriving DecidableEq

/-- The value of the `completionState` field. -/
structure CompState where
  decorations : List (Nat × String)
  completion : Option String
  deriving DecidableEq

/-- Position mapping of a widget point through one change: positions at or
before the deleted range keep their offset, positions at or after its end
shift by the length delta, positions strictly inside are dropped. -/
def mapPosChange (ch : ChangeSpec) (p : Nat) : Option Nat :=
  if p ≤ ch.«from» then some p
  else if ch.«to» ≤ p then some (p - (ch.«to» - ch.«from») + ch.insert.length)
  else none

/-- Mapping through all changes of a transaction in order. -/
def mapPosChanges (chs : List ChangeSpec) (p : Nat) : Option Nat :=
  chs.foldl (fun acc ch => acc.bind (mapPosChange ch)) (some p)

/-- `decorations.map(tr.changes)`: re-map every widget point, dropping
deleted ones. -/
def mapDecorations (chs : List ChangeSpec) (ds : List (Nat × String)) : List (Nat × String) :=
  ds.filterMap (fun d => (mapPosChanges chs d.1).map (fun q => (q, d.2)))

/-- The `for (const e of tr.effects)` loop of `completionState.update`:
the first `addCompletion` effect replaces the state with a fresh singleton
widget, the first `clearCompletions` empties it, and with no effect the
mapped decorations and old completion are kept. -/
def applyCompletionEffects (decorations : List (Nat × String))
    (completion : Option String) : List Eff → CompState
  | [] => ⟨decorations, completion⟩
  | Eff.add pos c :: _ => ⟨[(pos, c)], some c⟩
  | Eff.clear :: _ => ⟨[], none⟩

/-- `completionState.update` (`inlineCompletion.ts` lines 20-59): any
non-remote document change clears everything before effects are even
looked at; otherwise decorations are mapped through the changes and the
effects loop runs. -/
def updateCompletionState (st : CompState) (tr : Tr) : CompState :=
  if tr.docChanged && !tr.remote then ⟨[], none⟩
  else applyCompletionEffects (mapDecorations tr.changes st.decorations) st.completion tr.effects

/-- `completionState.create`. -/
def completionStateCreate : CompState := ⟨[], none⟩

/-- The field value after a whole transaction history. -/
def applyTrs (trs : List Tr) : CompState :=
  trs.foldl updateCompletionState completionStateCreate

/-! ## Async resolution of an inline completion (`inlineCompletion.ts`
lines 100-160)

When the debounce timer fires the plugin captures the cursor offset
`pos`; when `getInlineCompletion` resolves, it dispatches `addCompletion`
only when `this.view.state.selection.main.head === pos && completion`. -/

/-- The live Document/Selection state at resolution time. -/
structure Snapshot where
  doc : String
  head : Nat
  deriving DecidableEq

/-- The resolution-time guard (`inlineCompletion.ts` line 148):
`finalState.selection.main.head === pos && completion`. -/
def resolveCheck (issuedHead : Nat) (live : Snapshot) (completion : String) : Bool :=
  live.head == issuedHead && completion != ""

/-- Resolution of one in-flight inline-completion request: when the guard
passes, the plugin dispatches `addCompletion.of({from: pos, completion})`
(a transaction with no document change), which runs through
`completionState.update`; otherwise the result is dropped. -/
def resolveCompletion (issuedHead : Nat) (live : Snapshot) (comp : CompState)
    (completion : String) : CompState :=
  if resolveCheck issuedHead live completion then
    updateCompletionState comp ⟨false, false, [], [Eff.add issuedHead completion]⟩
  else comp

/-! ## Accepting an inline completion (`shortcuts.ts`, `acceptInlineCompletion`) -/

/-- Insert `ins` into `s` at character offset `pos`. -/
def strInsert (s : String) (pos : Nat) (ins : String) : String :=
  String.mk (s.data.take pos ++ ins.data ++ s.data.drop pos)

/-- The editor state `acceptInlineCompletion` touches: document, cursor
head, and the `completionState` field. -/
structure EditorFull where
  doc : String
  head : Nat
  comp : CompState
  deriving DecidableEq

/-- `acceptInlineCompletion` (`shortcuts.ts` lines 157-169): with no live
completion (field `null` or `''`) return `false` and change nothing;
otherwise dispatch one transaction inserting the completion at the
cursor, moving the cursor past it, and clearing `completionState`. -/
def acceptInlineCompletion (st : EditorFull) : Bool × EditorFull :=
  match st.comp.completion with
  | none => (false, st)
  | some c =>
    if c = "" then (false, st)
    else
      (true,
       ⟨strInsert st.doc st.head c,
        st.head + c.length,
        updateCompletionState st.comp ⟨true, false, [⟨st.head, st.head, c⟩], [Eff.clear]⟩⟩)

/-! ## Supporting lemmas -/

/-- Shifting the scan counter of `firstOccAux` shifts its answer. -/
theorem firstOccAux_shift (needle hay : List Char) (i : Nat) :
    firstOccAux needle hay i = (firstOccAux needle hay 0).map (· + i) := by
  induction hay generalizing i with
  | nil =>
    by_cases h : needle <+: ([] : List Char) <;> simp [firstOccAux, h]
  | cons c rest ih =>
    by_cases h : needle <+: (c :: rest)
    · simp [firstOccAux, h]
    · simp only [firstOccAux, if_neg h]
      rw [ih (i + 1), ih 1, Option.map_map]
      cases h0 : firstOccAux needle rest 0 with
      | none => simp
      | some j => simp [Function.comp]; omega

/-- Soundness of the `indexOf` scan: a returned index is an occurrence and
no smaller index is. -/
theorem firstOcc_some (needle hay : List Char) (j : Nat)
    (h : firstOccAux needle hay 0 = some j) :
    needle <+: hay.drop j ∧ ∀ k, k < j → ¬ needle <+: hay.drop k := by
  induction hay generalizing j with
  | nil =>
    simp only [firstOccAux] at h
    split at h
    next hp =>
      cases h
      exact ⟨by simpa using hp, fun k hk => by omega⟩
    next => cases h
  | cons c rest ih =>
    simp only [firstOccAux] at h
    split at h
    next hp =>
      cases h
      exact ⟨by simpa using hp, fun k hk => by omega⟩
    next hp =>
      rw [firstOccAux_shift] at h
      obtain ⟨j', hj', rfl⟩ := Option.map_eq_some'.mp h
      obtain ⟨h1, h2⟩ := ih j' hj'
      refine ⟨by simpa using h1, ?_⟩
      intro k hk
      cases k with
      | zero => simpa using hp
      | succ k' =>
        intro hcon
        exact h2 k' (by omega) (by simpa using hcon)

/-- Completeness of the `indexOf` scan: a `none` answer means no
occurrence exists at any index. -/
theorem firstOcc_none (needle hay : List Char)
    (h : firstOccAux needle hay 0 = none) :
    ∀ k, ¬ needle <+: hay.drop k := by
  induction hay with
  | nil =>
    simp only [firstOccAux] at h
    split at h
    next => cases h
    next hp => intro k; simpa using hp
  | cons c rest ih =>
    simp only [firstOccAux] at h
    split at h
    next => cases h
    next hp =>
      rw [firstOccAux_shift] at h
      have h0 : firstOccAux needle rest 0 = none := by
        cases h0 : firstOccAux needle rest 0 <;> simp [h0] at h ⊢
      intro k
      cases k with
      | zero => simpa using hp
      | succ k' => simpa using ih h0 k'

/-- The push-accumulating loop of `getTextSuggestions` is a `filterMap`. -/
theorem getTextSuggestionsPure_eq (text : String) (raw : List RawSuggestion) :
    getTextSuggestionsPure text raw = raw.filterMap (convertSuggestion text) := by
  suffices h : ∀ acc,
      raw.foldl
        (fun acc s =>
          match convertSuggestion text s with
          | some t => acc ++ [t]
          | none => acc)
        acc = acc ++ raw.filterMap (convertSuggestion text) by
    simpa [getTextSuggestionsPure] using h []
  induction raw with
  | nil => intro acc; simp
  | cons s rest ih =>
    intro acc
    cases h : convertSuggestion text s <;> simp [List.filterMap_cons, h, ih]

/-- C3 (confirmed): every produced `TextSuggestion` span is the first
occurrence of the flagged substring in `fullText` by exact substring
search — `from` is an occurrence index, no smaller index is an
occurrence, and `to = from + text.length`; a raw suggestion whose flagged
text does not occur verbatim produces no `TextSuggestion`; the output
list is exactly the per-suggestion conversion filtered over the raw
list. -/
theorem c3_suggestion_spans (text : String) (raw : List RawSuggestion) :
    getTextSuggestionsPure text raw = raw.filterMap (convertSuggestion text) ∧
    (∀ s u, convertSuggestion text s = some u →
      u.original = s.text ∧ u.replacement = s.replacement ∧
      u.«to» = u.«from» + s.text.length ∧
      s.text.data <+: text.data.drop u.«from» ∧
      (∀ k, k < u.«from» → ¬ s.text.data <+: text.data.drop k)) ∧
    (∀ s, (∀ k, ¬ s.text.data <+: text.data.drop k) →
      convertSuggestion text s = none) := by
  refine ⟨getTextSuggestionsPure_eq text raw, ?_, ?_⟩
  · intro s u hu
    unfold convertSuggestion at hu
    cases h : strIndexOf text s.text with
    | none => rw [h] at hu; cases hu
    | some i =>
      rw [h] at hu
      cases hu
      obtain ⟨h1, h2⟩ := firstOcc_some s.text.data text.data i (by simpa [strIndexOf] using h)
      exact ⟨rfl, rfl, rfl, h1, h2⟩
  · intro s hnone
    unfold convertSuggestion
    cases h : strIndexOf text s.text with
    | none => rfl
    | some i =>
      exact absurd (firstOcc_some s.text.data text.data i (by simpa [strIndexOf] using h)).1
        (hnone i)

/-- Witness for C3 at the spec's example: `"Teh"` in `"Teh quick fox"`
occurs at index `0`, and the pipeline equals its `filterMap` description
there. -/
theorem c3_witness :
    ("Teh" : String).data <+: (("Teh quick fox" : String).data.drop 0) ∧
    getTextSuggestionsPure "Teh quick fox" [⟨"Teh", "spelling", "The", "typo"⟩]
      = [(⟨"Teh", "spelling", "The", "typo"⟩ : RawSuggestion)].filterMap
          (convertSuggestion "Teh quick fox") :=
  ⟨(((c3_suggestion_spans "Teh quick fox" [⟨"Teh", "spelling", "The", "typo"⟩]).2.1
      ⟨"Teh", "spelling", "The", "typo"⟩ ⟨0, 3, "spelling", "The", "typo", "Teh"⟩
      (by decide)).2.2.2).1,
   (c3_suggestion_spans "Teh quick fox" [⟨"Teh", "spelling", "The", "typo"⟩]).1⟩

/-- C4 counterexample: `"cat\t"` ends in whitespace (a tab), yet the code
still prepends a joiner space, because `getInlineCompletion` tests for a
literal space character (`endsWith(' ')`), not for whitespace.  The claim
as stated ("no leading space when lineText already ends in whitespace")
is therefore false at this input. -/
theorem c4_counterexample :
    ((("cat\t" : String).data.getLast?.map Char.isWhitespace) = some true) ∧
    joinCompletion "cat\t" "sat" = " sat" ∧ (" sat" : String) ≠ "sat" := by
  decide

/-- C4 (amended): the joiner is suppressed exactly when `lineText` ends
with a literal space character or the continuation starts with one;
otherwise exactly one space is inserted.  Other whitespace (tab, newline)
does not suppress the joiner. -/
theorem c4_joiner_space (text result : String) :
    ((jsEndsWithSpace text = true ∨ jsStartsWithSpace result = true) →
      joinCompletion text result = result) ∧
    (jsEndsWithSpace text = false → jsStartsWithSpace result = false →
      joinCompletion text result = " " ++ result) := by
  constructor
  · rintro (h | h) <;> simp [joinCompletion, h]
  · intro h1 h2
    simp [joinCompletion, h1, h2]

/-- Witness for C4 at the spec's examples: `"cat" + "sat"` gives `" sat"`,
`"cat " + "sat"` gives `"sat"`. -/
theorem c4_witness :
    joinCompletion "cat" "sat" = " " ++ "sat" ∧ joinCompletion "cat " "sat" = "sat" :=
  ⟨(c4_joiner_space "cat" "sat").2 (by decide) (by decide),
   (c4_joiner_space "cat " "sat").1 (Or.inl (by decide))⟩

/-- C7 (confirmed): every gateway operation converts an AI-call failure
(network error or unparseable structured response, which land in the same
`catch`) into its neutral empty result — `''` for the string-valued
operations, `[]` for the list-valued ones — and likewise converts a
present but ill-shaped payload into the same neutral result. -/
theorem c7_fail_soft (text : String) :
    getRewriteSuggestionsM .failure = [] ∧
    getRewriteM .failure = "" ∧
    getInlineCompletionM text .failure = "" ∧
    getTextSuggestionsM text .failure = [] ∧
    getRewriteSuggestionsM (.success none) = [] ∧
    getRewriteM (.success none) = "" ∧
    getTextSuggestionsM text (.success none) = [] :=
  ⟨rfl, rfl, rfl, rfl, rfl, rfl, rfl⟩

/-- C6 (confirmed): a cached lookup returns the stored result exactly
while `now - createdAt < CACHE_TTL` without running the producer; an
absent or expired entry makes the producer run and its result replace the
entry under the current timestamp; in particular a lookup within the TTL
of a write returns the written value with no producer call, and a lookup
after the TTL runs a fresh producer whose result replaces the expired
entry. -/
theorem cachedCall_hit {α : Type} (c : String → Option (CacheEntryM α))
    (key : String) (now : Nat) (fresh : α) (e : CacheEntryM α)
    (he : c key = some e) (h : now - e.timestamp < CACHE_TTL) :
    cachedCall c key now fresh = ⟨e.value, c, false⟩ := by
  simp [cachedCall, he, h]

theorem cachedCall_expired {α : Type} (c : String → Option (CacheEntryM α))
    (key : String) (now : Nat) (fresh : α) (e : CacheEntryM α)
    (he : c key = some e) (h : ¬ now - e.timestamp < CACHE_TTL) :
    cachedCall c key now fresh = ⟨fresh, cacheSet c key ⟨fresh, now⟩, true⟩ := by
  simp [cachedCall, he, h]

theorem cachedCall_absent {α : Type} (c : String → Option (CacheEntryM α))
    (key : String) (now : Nat) (fresh : α) (he : c key = none) :
    cachedCall c key now fresh = ⟨fresh, cacheSet c key ⟨fresh, now⟩, true⟩ := by
  simp [cachedCall, he]

theorem c6_cache_ttl {α : Type} (c : String → Option (CacheEntryM α))
    (key : String) (now t1 : Nat) (v0 v1 : α) :
    (∀ e, c key = some e →
      (now - e.timestamp < CACHE_TTL →
        cachedCall c key now v0 = ⟨e.value, c, false⟩) ∧
      (¬ now - e.timestamp < CACHE_TTL →
        cachedCall c key now v0 = ⟨v0, cacheSet c key ⟨v0, now⟩, true⟩)) ∧
    (c key = none → cachedCall c key now v0 = ⟨v0, cacheSet c key ⟨v0, now⟩, true⟩) ∧
    ((cachedCall c key now v0).producerCalled = true →
      (t1 - now < CACHE_TTL →
        cachedCall (cachedCall c key now v0).cache key t1 v1
          = ⟨v0, (cachedCall c key now v0).cache, false⟩) ∧
      (¬ t1 - now < CACHE_TTL →
        (cachedCall (cachedCall c key now v0).cache key t1 v1).value = v1 ∧
        (cachedCall (cachedCall c key now v0).cache key t1 v1).producerCalled = true ∧
        (cachedCall (cachedCall c key now v0).cache key t1 v1).cache key = some ⟨v1, t1⟩)) := by
  refine ⟨?_, ?_, ?_⟩
  · intro e he
    exact ⟨cachedCall_hit c key now v0 e he, cachedCall_expired c key now v0 e he⟩
  · intro he
    exact cachedCall_absent c key now v0 he
  · intro hp
    have hcache : (cachedCall c key now v0).cache key = some ⟨v0, now⟩ := by
      unfold cachedCall at hp ⊢
      cases he : c key with
      | none => simp [cacheSet]
      | some e =>
        simp only [he] at hp ⊢
        by_cases httl : now - e.timestamp < CACHE_TTL
        · simp [httl] at hp
        · simp [httl, cacheSet]
    constructor
    · intro h
      exact cachedCall_hit _ key t1 v1 ⟨v0, now⟩ hcache h
    · intro h
      rw [cachedCall_expired _ key t1 v1 ⟨v0, now⟩ hcache h]
      exact ⟨rfl, rfl, by simp [cacheSet]⟩

/-- Witness for C6: after a miss-write at time `0`, a lookup at `1000`
(within the 5-minute TTL) returns the written value with no producer
call. -/
theorem c6_witness :
    cachedCall (cachedCall (fun _ => none) "k" 0 (5 : Nat)).cache "k" 1000 7
      = ⟨5, (cachedCall (fun _ => none) "k" 0 (5 : Nat)).cache, false⟩ :=
  ((c6_cache_ttl (fun _ => none) "k" 0 1000 (5 : Nat) 7).2.2 rfl).1 (by decide)

/-- C2 counterexample: selection `0..5` is non-empty, the key `'C'` is an
uppercase letter and no rewrite option exists yet (the options list is
not active), yet `handleKey` does not consume the key — it returns
`false`, so default typing proceeds and inserts the character over the
selection, contradicting "the keypress is swallowed ... including the
case where no rewrite options exist at all yet". -/
theorem c2_counterexample :
    ('C'.toUpper = 'C') ∧ ((0 : Nat) ≠ 5) ∧
    handleKey 'C' ⟨"hello", 0, 5, false, [], ""⟩ = passResult ∧
    passResult.consumed = false := by
  decide

/-- C2 (amended): for an uppercase letter keypress with a non-empty
selection, the swallowing guarantee holds only while the options list is
active: then the first option matching the key (custom or regular) with
a non-empty apply text is committed — the selected range is replaced by
its apply text, the buffer cleared and the list closed — and in every
other active case (no options yet, no match, or an empty apply text) the
key is consumed with no document edit; when the options list is not
active the keypress is not consumed and falls through to default
typing. -/
theorem c2_uppercase_commit (key : Char) (st : EditorSt)
    (hsel : st.selFrom ≠ st.selTo) (hcase : key.toLower ≠ key) :
    (st.statusActive = false → handleKey key st = passResult) ∧
    (st.statusActive = true → st.completions = [] →
      handleKey key st = swallowResult) ∧
    (st.statusActive = true → ∀ opt,
      st.completions.find? (matchesKey (bufferParts st.buffer).1 key) = some opt →
      (opt.apply ≠ "" → key.toUpper = key →
        handleKey key st = commitResult st.selFrom st.selTo opt.apply) ∧
      ((opt.apply = "" ∨ key.toUpper ≠ key) → handleKey key st = swallowResult)) ∧
    (st.statusActive = true → st.completions ≠ [] →
      st.completions.find? (matchesKey (bufferParts st.buffer).1 key) = none →
      handleKey key st = swallowResult) := by
  have hk : (key == key.toLower) = false := by
    simp only [beq_eq_false_iff_ne, ne_eq]
    exact fun h => hcase h.symm
  have hbranch : (st.selFrom != st.selTo && key == key.toLower) = false := by
    simp [hk]
  refine ⟨?_, ?_, ?_, ?_⟩
  · intro hs
    simp [handleKey, hbranch, hs]
  · intro hs hc
    simp [handleKey, hbranch, hs, hc]
  · intro hs opt hfind
    have hne : st.completions.isEmpty = false := by
      cases hcomp : st.completions with
      | nil => rw [hcomp] at hfind; simp at hfind
      | cons a l => simp
    constructor
    · intro ha hu
      have hcond : (opt.apply != "" && key == key.toUpper) = true := by
        simp [ha, hu]
      simp [handleKey, hbranch, hs, hne, hfind, hcond]
    · intro hbad
      have hcond : (opt.apply != "" && key == key.toUpper) = false := by
        cases hbad with
        | inl h => simp [h]
        | inr h =>
          have : (key == key.toUpper) = false := by
            simp only [beq_eq_false_iff_ne, ne_eq]
            exact fun hh => h hh.symm
          simp [this]
      simp [handleKey, hbranch, hs, hne, hfind, hcond]
  · intro hs hc hfind
    have hne : st.completions.isEmpty = false := by
      cases hcomp : st.completions with
      | nil => exact absurd hcomp hc
      | cons a l => simp
    simp [handleKey, hbranch, hs, hne, hfind]

/-- Witness for C2 at the spec's example: with the options list active
and an option labelled `"Condense Text (c)"` with apply text `"foo"`,
pressing `'C'` over selection `0..5` replaces the selection with `"foo"`,
clears the buffer and closes the list. -/
theorem c2_witness :
    handleKey 'C' ⟨"hello", 0, 5, true, [⟨"Condense Text (c)", "foo"⟩], ""⟩
      = commitResult 0 5 "foo" :=
  ((c2_uppercase_commit 'C' ⟨"hello", 0, 5, true, [⟨"Condense Text (c)", "foo"⟩], ""⟩
      (by decide) (by decide)).2.2.1 rfl ⟨"Condense Text (c)", "foo"⟩
      (by decide)).1 (by decide) (by decide)

/-- A lowercase keypress with a non-empty selection appends to the buffer
and (re)schedules the debounced fetch with the new buffer. -/
theorem pressKey_lower (doc : String) (f t : Nat) (status : Bool)
    (comps : List CMOption) (ch : RewriteChannel) (c : Char)
    (hsel : f ≠ t) (hc : c.toLower = c) :
    pressKey doc f t status comps ch c
      = ⟨ch.buffer.push c, some (ch.buffer.push c), ch.fetches⟩ := by
  have h1 : (f != t) = true := by simpa using hsel
  have h2 : (c == c.toLower) = true := by rw [hc]; exact beq_self_eq_true c
  simp [pressKey, handleKey, h1, h2]

/-- A burst of lowercase keypresses only accumulates the buffer and keeps
exactly the last scheduled fetch pending; no fetch is issued during the
burst. -/
theorem pressKey_foldl (doc : String) (f t : Nat) (status : Bool)
    (comps : List CMOption) (hsel : f ≠ t) :
    ∀ ls : List Char, (∀ c ∈ ls, c.toLower = c) → ∀ ch : RewriteChannel,
      ls.foldl (pressKey doc f t status comps) ch
        = ⟨ls.foldl String.push ch.buffer,
           if ls.isEmpty then ch.pending else some (ls.foldl String.push ch.buffer),
           ch.fetches⟩ := by
  intro ls
  induction ls with
  | nil => intro _ ch; rfl
  | cons c rest ih =>
    intro hlow ch
    have hc : c.toLower = c := hlow c (by simp)
    have hrest : ∀ x ∈ rest, x.toLower = x := fun x hx => hlow x (by simp [hx])
    simp only [List.foldl_cons, pressKey_lower doc f t status comps ch c hsel hc,
      ih hrest]
    cases rest <;> simp

/-- Pushing characters one at a time builds the literal string. -/
theorem foldl_push_mk (ls : List Char) : ∀ acc : List Char,
    ls.foldl String.push (String.mk acc) = String.mk (acc ++ ls) := by
  induction ls with
  | nil => intro acc; simp
  | cons c rest ih =>
    intro acc
    have hstep : String.push (String.mk acc) c = String.mk (acc ++ [c]) := rfl
    simp only [List.foldl_cons, hstep, ih (acc ++ [c]), List.append_assoc,
      List.singleton_append]

/-- C5 (confirmed): a burst of `N` lowercase letter keypresses over a
non-empty selection, all inside the debounce window, appends every letter
to the `RewriteQueryBuffer`, and when the surviving timer fires exactly
one rewrite fetch is issued whose instruction is the concatenation of all
`N` letters. -/
theorem c5_debounced_single_fetch (doc : String) (f t : Nat) (status : Bool)
    (comps : List CMOption) (ls : List Char)
    (hne : ls ≠ []) (hsel : f ≠ t) (hlow : ∀ c ∈ ls, c.toLower = c) :
    fireTimer (ls.foldl (pressKey doc f t status comps) ⟨"", none, []⟩)
      = ⟨String.mk ls, none, [String.mk ls]⟩ := by
  rw [pressKey_foldl doc f t status comps hsel ls hlow ⟨"", none, []⟩]
  have h0 : ("" : String) = String.mk [] := rfl
  have hbuf : ls.foldl String.push "" = String.mk ls := by
    rw [h0, foldl_push_mk ls []]; rfl
  have hemp : ls.isEmpty = false := by
    cases ls with
    | nil => exact absurd rfl hne
    | cons a l => rfl
  simp [fireTimer, hbuf, hemp]

/-- Witness for C5 at the spec's example: pressing `'c'` then `'o'`
inside the debounce window yields exactly one fetch with instruction
`"co"`. -/
theorem c5_witness :
    fireTimer (['c', 'o'].foldl (pressKey "hello world" 0 5 false []) ⟨"", none, []⟩)
      = ⟨String.mk ['c', 'o'], none, [String.mk ['c', 'o']]⟩ ∧
    String.mk ['c', 'o'] = "co" :=
  ⟨c5_debounced_single_fetch "hello world" 0 5 false [] ['c', 'o']
      (by decide) (by decide) (by decide),
   by decide⟩

/-- The custom option's apply text (`preview || text`) is non-empty when
the buffer's text part is. -/
theorem applyOf_ne_empty (t : String) (p : Option String) (ht : t ≠ "") :
    applyOf t p ≠ "" := by
  cases p with
  | none => exact ht
  | some pv =>
    by_cases hp : pv = "" <;> simp [applyOf, hp]
    exact ht

/-- C8 (confirmed): whenever both a custom-rewrite-buffer preview and the
fixed rewrite-option list are available, the custom option is presented
first, and an uppercase keypress matching the custom entry's letter
commits the custom preview — the selection is replaced by the custom
option's apply text, regardless of any same-letter fixed option in the
cached list. -/
theorem c8_custom_priority (buf : String) (cached : List CMOption) (key : Char)
    (doc : String) (f t : Nat)
    (hbuf : buf ≠ "") (htext : (bufferParts buf).1 ≠ "")
    (hsel : f ≠ t) (hupper : key.toUpper = key) (hcase : key.toLower ≠ key)
    (hletter : ((bufferParts buf).1.data.head?.map Char.toLower) = some key.toLower) :
    (presentOptions buf cached).head? = some (customOption buf) ∧
    handleKey key ⟨doc, f, t, true, presentOptions buf cached, buf⟩
      = commitResult f t (customOption buf).apply := by
  have hpres : presentOptions buf cached = customOption buf :: cached := by
    simp [presentOptions, hbuf]
  refine ⟨by simp [hpres], ?_⟩
  have hk : (key == key.toLower) = false := by
    simp only [beq_eq_false_iff_ne, ne_eq]
    exact fun h => hcase h.symm
  have hmatch : matchesKey (bufferParts buf).1 key (customOption buf) = true := by
    simp only [matchesKey, customOption]
    rw [if_pos (beq_self_eq_true _)]
    rw [hupper]
    exact beq_self_eq_true key
  have happly : ((customOption buf).apply != "") = true := by
    simpa using applyOf_ne_empty (bufferParts buf).1 (bufferParts buf).2 htext
  have hcond : ((customOption buf).apply != "" && key == key.toUpper) = true := by
    rw [happly, hupper]
    simp
  simp [handleKey, hk, hpres, List.find?_cons, hmatch, hcond]

/-- Witness for C8: buffer `"c|Foo"` (custom letter `c`, preview
`"Foo"`), a fixed option `"Condense Text (c)"` with apply text `"bar"`
carrying the same letter, key `'C'`: the custom preview `"Foo"` is
committed, not `"bar"`. -/
theorem c8_witness :
    handleKey 'C'
        ⟨"hello", 0, 5, true,
         presentOptions "c|Foo" [⟨"Condense Text (c)", "bar"⟩], "c|Foo"⟩
      = commitResult 0 5 (customOption "c|Foo").apply ∧
    (customOption "c|Foo").apply = "Foo" :=
  ⟨(c8_custom_priority "c|Foo" [⟨"Condense Text (c)", "bar"⟩] 'C' "hello" 0 5
      (by decide) (by decide) (by decide) (by decide) (by decide) (by decide)).2,
   by decide⟩

/-- C1 counterexample: an inline-completion request issued on the
snapshot `⟨"The cat", 7⟩`; by resolution time the document has changed to
`"The dog"` while the cursor offset is still `7`.  The code's guard
compares only the cursor offset, so the check passes and the stale result
is installed — even replacing an existing anchor `"fresh"` — although the
document text differs from the captured snapshot. -/
theorem c1_counterexample :
    (Snapshot.mk "The cat" 7).doc ≠ (Snapshot.mk "The dog" 7).doc ∧
    (Snapshot.mk "The cat" 7).head = (Snapshot.mk "The dog" 7).head ∧
    resolveCheck (Snapshot.mk "The cat" 7).head ⟨"The dog", 7⟩ "stale" = true ∧
    resolveCompletion (Snapshot.mk "The cat" 7).head ⟨"The dog", 7⟩
        ⟨[(7, "fresh")], some "fresh"⟩ "stale"
      = ⟨[(7, "stale")], some "stale"⟩ := by
  decide

/-- C1 (amended): a resolved inline completion is applied exactly when
the live cursor head offset equals the offset captured at issue time and
the completion string is non-empty; the comparison is by cursor offset
only, so a document-text change that preserves the offset does not cause
a discard, and a result whose offset check passes replaces whatever
anchor is currently installed. -/
theorem c1_resolution_by_offset (issuedHead : Nat) (live : Snapshot)
    (comp : CompState) (c : String) :
    (live.head ≠ issuedHead → resolveCompletion issuedHead live comp c = comp) ∧
    (c = "" → resolveCompletion issuedHead live comp c = comp) ∧
    (live.head = issuedHead → c ≠ "" →
      resolveCompletion issuedHead live comp c = ⟨[(issuedHead, c)], some c⟩) := by
  refine ⟨?_, ?_, ?_⟩
  · intro h
    simp [resolveCompletion, resolveCheck, h]
  · intro h
    simp [resolveCompletion, resolveCheck, h]
  · intro h1 h2
    simp [resolveCompletion, resolveCheck, h1, h2, updateCompletionState,
      applyCompletionEffects]

/-- Witness for C1: a moved cursor (offset 9 ≠ 4) discards the result; a
matching offset installs the completion as the sole anchor. -/
theorem c1_witness :
    resolveCompletion 4 ⟨"abcd", 9⟩ ⟨[], none⟩ "x" = ⟨[], none⟩ ∧
    resolveCompletion 4 ⟨"abcd", 4⟩ ⟨[], none⟩ "x" = ⟨[(4, "x")], some "x"⟩ :=
  ⟨(c1_resolution_by_offset 4 ⟨"abcd", 9⟩ ⟨[], none⟩ "x").1 (by decide),
   (c1_resolution_by_offset 4 ⟨"abcd", 4⟩ ⟨[], none⟩ "x").2.2 rfl (by decide)⟩

/-- C9 (confirmed): accepting an inline completion is idempotent — after
any accept, the completion field is empty, so a second accept returns
`false`, performs no edit and leaves the editor state unchanged. -/
theorem c9_accept_idempotent (st : EditorFull) :
    acceptInlineCompletion (acceptInlineCompletion st).2
      = (false, (acceptInlineCompletion st).2) := by
  cases h : st.comp.completion with
  | none => simp [acceptInlineCompletion, h]
  | some c =>
    by_cases hc : c = ""
    · simp [acceptInlineCompletion, h, hc]
    · simp [acceptInlineCompletion, h, hc, updateCompletionState]

/-- The invariant maintained by `completionState`: at most one ghost-text
decoration, and none without a stored completion string. -/
def CompInv (st : CompState) : Prop :=
  st.decorations.length ≤ 1 ∧ (st.completion = none → st.decorations = [])

/-- `completionState.update` preserves the single-decoration invariant. -/
theorem compInv_update (st : CompState) (tr : Tr) (h : CompInv st) :
    CompInv (updateCompletionState st tr) := by
  unfold updateCompletionState
  split
  · exact ⟨by simp, fun _ => rfl⟩
  · cases heff : tr.effects with
    | nil =>
      refine ⟨?_, ?_⟩
      · simpa [applyCompletionEffects, mapDecorations] using
          Nat.le_trans (List.length_filterMap_le _ _) h.1
      · intro hc
        simp only [applyCompletionEffects] at hc ⊢
        rw [h.2 hc]
        rfl
    | cons e rest =>
      cases e <;> simp [applyCompletionEffects, CompInv]

/-- C10 (confirmed): every transaction that changes the document and is
not annotated remote resets `completionState` to the empty state —
completion `null` and no decorations — regardless of whether the edit
touches the anchor and regardless of effects carried by the same
transaction; and along any transaction history at most one inline
completion is live, with no decoration surviving without a completion
string. -/
theorem c10_local_edit_clears (st : CompState) (tr : Tr) (trs : List Tr)
    (hdoc : tr.docChanged = true) (hrem : tr.remote = false) :
    updateCompletionState st tr = ⟨[], none⟩ ∧
    (applyTrs trs).decorations.length ≤ 1 ∧
    ((applyTrs trs).completion = none → (applyTrs trs).decorations = []) := by
  have hinv : ∀ (l : List Tr) (s : CompState), CompInv s →
      CompInv (l.foldl updateCompletionState s) := by
    intro l
    induction l with
    | nil => intro s hs; exact hs
    | cons a as ih => intro s hs; exact ih _ (compInv_update s a hs)
  have h := hinv trs completionStateCreate ⟨by simp [completionStateCreate], fun _ => rfl⟩
  exact ⟨by simp [updateCompletionState, hdoc, hrem], h.1, h.2⟩

/-- Witness for C10: an edit at offsets 5-6 that does not touch the
anchor at 2 — and a transaction even carrying an `addCompletion` effect —
still clears the whole state. -/
theorem c10_witness :
    updateCompletionState ⟨[(2, "x")], some "x"⟩
        ⟨true, false, [⟨5, 6, "y"⟩], [Eff.add 3 "z"]⟩
      = ⟨[], none⟩ :=
  (c10_local_edit_clears ⟨[(2, "x")], some "x"⟩
      ⟨true, false, [⟨5, 6, "y"⟩], [Eff.add 3 "z"]⟩ [] rfl rfl).1
